import Mathlib

/-!
Verification of the BookDebugger text-analysis backend (`backend/api_server.py`).

The Python source is shallowly embedded below.  External collaborators
(the NLTK tokenizers, the NLTK stopword set, the gensim word2vec table)
are parameters of the embedded functions, exactly as the spec treats
them.  Python floats are idealized as rationals, `time.time()` is an
explicit rational-valued `now` parameter, and Python dicts are
association lists in insertion order (which is how CPython dicts
iterate).  SHA-256 is an abstract `digest : String → String` parameter;
the string fed to it is modelled exactly.
-/

/-- Model of Python `str.lower()` (ASCII fragment). -/
def pyLower (s : String) : String := String.mk (s.data.map Char.toLower)

/-- Model of Python `str.strip()` (ASCII whitespace fragment). -/
def pyStrip (s : String) : String :=
  String.mk
    (((s.data.dropWhile Char.isWhitespace).reverse.dropWhile Char.isWhitespace).reverse)

/-- Model of Python `str.isalpha()` (ASCII fragment): nonempty and all
letters.  Source line 118 filters tokens with it. -/
def pyIsAlpha (s : String) : Bool := !s.isEmpty && s.toList.all Char.isAlpha

/-- Model of Python `round(x, d)`: round half to even at `d` decimal
places, on exact rationals. -/
def pyRound (x : ℚ) (d : Nat) : ℚ :=
  let m : ℚ := (10 : ℚ) ^ d
  let y := x * m
  let fl : Int := Int.fdiv y.num (y.den : Int)
  let fr : ℚ := y - (fl : ℚ)
  let r : Int :=
    if fr < (1 : ℚ)/2 then fl
    else if (1 : ℚ)/2 < fr then fl + 1
    else if fl % 2 = 0 then fl else fl + 1
  (r : ℚ) / m

/-- JSON scalar values that can appear in the request `options` dict. -/
inductive PyVal
  | pbool (b : Bool)
  | pint (n : Int)
  | pstr (s : String)
deriving DecidableEq

/-- Python `str()` of a scalar value, as it appears inside `str(dict)`. -/
def pyValStr : PyVal → String
  | .pbool true => "True"
  | .pbool false => "False"
  | .pint n => toString n
  | .pstr s => "'" ++ s ++ "'"

/-- Python truthiness of a scalar, used where the source treats an
option value as a boolean. -/
def pyTruthy : PyVal → Bool
  | .pbool b => b
  | .pint n => !(n == 0)
  | .pstr s => !(s == "")

/-- Python `str()` of a dict in insertion order, e.g. `{'a': 1, 'b': 2}`. -/
def pyDictStr (d : List (String × PyVal)) : String :=
  "\x7b" ++ String.intercalate ", "
    (d.map (fun p => "'" ++ p.1 ++ "': " ++ pyValStr p.2)) ++ "\x7d"

/-- Python list indexing, including negative indices counting from the
end; `none` models an IndexError. -/
def pyGet (l : List α) (i : Int) : Option α :=
  if 0 ≤ i then l.get? i.toNat
  else
    let j : Int := (l.length : Int) + i
    if 0 ≤ j then l.get? j.toNat else none

/-- After a `<`, scan for the closing `>`; `some rest` is the text after
the matched tag (helper for the `<[^>]+>` regex of `sanitize_text`). -/
def skipToGt : List Char → Option (List Char)
  | [] => none
  | c :: cs => if c = '>' then some cs else skipToGt cs

/-- Attempt the `[^>]+>` part of the tag regex on the text after a `<`:
fails on an immediate `>` (the `+` needs one char) or a missing `>`. -/
def dropTag : List Char → Option (List Char)
  | [] => none
  | c :: cs => if c = '>' then none else skipToGt cs

/-- Left-to-right removal of `<[^>]+>` matches, the effect of
`re.sub(r'<[^>]+>', '', text)`.  The fuel argument only bounds the
recursion; `fuel = length` always suffices because every step consumes
at least one character. -/
def sanitizeAux : Nat → List Char → List Char
  | 0, _ => []
  | _ + 1, [] => []
  | fuel + 1, c :: cs =>
    if c = '<' then
      match dropTag cs with
      | some rest => sanitizeAux fuel rest
      | none => c :: sanitizeAux fuel cs
    else c :: sanitizeAux fuel cs

/-- Source `sanitize_text`: strip HTML-like tags. -/
def sanitize_text (text : String) : String :=
  String.mk (sanitizeAux text.toList.length text.toList)

/-- Lookup in a Python dict modelled as an insertion-ordered
association list. -/
def dictLookup (k : String) : List (String × β) → Option β
  | [] => none
  | (k2, v) :: rest => if k2 = k then some v else dictLookup k rest

/-- Python dict assignment `d[k] = v`: update in place if the key
exists, else append at the end. -/
def dictSet (k : String) (v : β) : List (String × β) → List (String × β)
  | [] => [(k, v)]
  | (k2, v2) :: rest =>
    if k2 = k then (k2, v) :: rest else (k2, v2) :: dictSet k v rest

/-- Python `del d[k]`. -/
def dictDel (k : String) (d : List (String × β)) : List (String × β) :=
  d.filter (fun p => !(p.1 == k))

/-- One step of building a `collections.Counter`: bump the count of `w`,
first-seen keys staying in place, new keys appended. -/
def counterInsert (w : String) : List (String × Nat) → List (String × Nat)
  | [] => [(w, 1)]
  | (x, c) :: rest =>
    if x = w then (x, c + 1) :: rest else (x, c) :: counterInsert w rest

/-- `collections.Counter(words)`: counts in first-seen key order. -/
def counter (ws : List String) : List (String × Nat) :=
  ws.foldl (fun acc w => counterInsert w acc) []

/-- Stable insertion into a sorted list (ties keep the inserted, i.e.
originally earlier, element first). -/
def insSorted (le : α → α → Bool) (x : α) : List α → List α
  | [] => [x]
  | y :: ys => if le x y then x :: y :: ys else y :: insSorted le x ys

/-- Stable insertion sort. -/
def isortBy (le : α → α → Bool) : List α → List α
  | [] => []
  | x :: xs => insSorted le x (isortBy le xs)

/-- `Counter.most_common(n)`: stable sort by count descending (ties in
first-seen order, as `heapq.nlargest` guarantees), then take `n`. -/
def mostCommon (n : Nat) (freq : List (String × Nat)) : List (String × Nat) :=
  (isortBy (fun a b => decide (b.2 ≤ a.2)) freq).take n

/-- The external gensim model: a word → vector table plus
`vector_size`. -/
structure W2V where
  table : String → Option (List ℚ)
  vector_size : Nat

/-- Source `get_word_embedding`: `None` when no model is loaded,
otherwise try the lowercase form first, then the original casing. -/
def get_word_embedding (m : Option W2V) (word : String) : Option (List ℚ) :=
  match m with
  | none => none
  | some mdl =>
    match mdl.table (pyLower word) with
    | some v => some v
    | none => mdl.table word

/-- Source lines 168-174: walk the content words collecting, in order,
the vectors of the words that resolve (`embeddings`) and those words
themselves (`words_list`). -/
def resolveContent (m : W2V) : List String → List (List ℚ) × List String
  | [] => ([], [])
  | w :: ws =>
    let rest := resolveContent m ws
    match get_word_embedding (some m) w with
    | some e => (e :: rest.1, w :: rest.2)
    | none => rest

/-- `np.mean(vs, axis=0)`: elementwise mean of equal-length rows. -/
def npMean (vs : List (List ℚ)) : List ℚ :=
  match vs with
  | [] => []
  | v :: _ =>
    (List.range v.length).map
      (fun j => ((vs.map (fun u => u.getD j 0)).sum) / (vs.length : ℚ))

/-- Squared Euclidean distance, the metric of `faiss.IndexFlatL2`. -/
def sqDist (a b : List ℚ) : ℚ := (List.zipWith (fun x y => (x - y) ^ 2) a b).sum

/-- The distance faiss reports for padded (absent) results; models
FLT_MAX. -/
def FAISS_PAD_DIST : ℚ := (2 : ℚ) ^ 128

/-- `index.search` of one query against a flat L2 index over `db`,
asking for `n` results: the `n` nearest (distance, label) pairs in
ascending order (ties by insertion label), padded with label `-1` and a
huge distance when the index holds fewer than `n` vectors. -/
def faissSearch (db : List (List ℚ)) (q : List ℚ) (n : Nat) : List (ℚ × Int) :=
  let scored := (db.enum.map (fun p => (sqDist q p.2, (p.1 : Int))))
  let sorted := isortBy
    (fun a b => decide (a.1 < b.1 ∨ (a.1 = b.1 ∧ a.2 ≤ b.2))) scored
  let top := sorted.take n
  top ++ List.replicate (n - top.length) (FAISS_PAD_DIST, -1)

/-- Error outcomes of `process_text`; each models a Python exception
that makes the request fail. -/
inductive PErr
  | nameErrorEmbeddings
  | faissEmptyAdd
  | faissDimMismatch
  | indexError
deriving DecidableEq

/-- One entry of a neighbor list: `{'word': ..., 'distance': ...}`. -/
structure Neighbor where
  word : String
  distance : ℚ
deriving DecidableEq

/-- One entry of `top_words`: `{'word': ..., 'count': ...}`. -/
structure TopWord where
  word : String
  count : Nat
deriving DecidableEq

/-- The `statistics` sub-object of the result. -/
structure Statistics where
  word_count : Nat
  unique_word_count : Nat
  sentence_count : Nat
  character_count : Nat
  avg_words_per_sentence : ℚ
  avg_word_length : ℚ
  content_word_count : Nat
  stopword_count : Nat
deriving DecidableEq

/-- One `word_dictionary` record.  `Option` on the embedding fields
models presence of the dict key: the source adds `embedding` and
`embedding_dim` only for resolved words, and `embedding_available`
(always `False`) only for unresolved ones. -/
structure WordRecord where
  count : Nat
  frequency : ℚ
  is_stopword : Bool
  embedding : Option (Option (List ℚ))
  embedding_dim : Option Nat
  embedding_available : Option Bool
deriving DecidableEq

/-- The full `process_text` result object.  `document_embedding` and
`embedding_coverage` are optional keys. -/
structure AnalysisResult where
  statistics : Statistics
  top_words : List TopWord
  sentences : List String
  word_dictionary : List (String × WordRecord)
  words_neighbors : List (String × List Neighbor)
  document_embedding : Option (List ℚ)
  embedding_coverage : Option ℚ
deriving DecidableEq

/-- Source line 115-118: lowercase word tokens of the sanitized text,
filtered to alphabetic ones. -/
def wordsOf (word_tokenize : String → List String) (text : String) : List String :=
  (word_tokenize (pyLower (sanitize_text text))).filter pyIsAlpha

/-- Source line 139: words that are not stopwords (with multiplicity). -/
def contentWordsOf (words stop_words : List String) : List String :=
  words.filter (fun w => !(decide (w ∈ stop_words)))

/-- Source lines 141-143: non-stopword survivors of the overall
`most_common(100)` list. -/
def topWordsOf (words stop_words : List String) : List TopWord :=
  ((mostCommon 100 (counter words)).filter
      (fun p => decide (p.1 ∈ contentWordsOf words stop_words))).map
    (fun p => ⟨p.1, p.2⟩)

/-- Built from the spec's words (§4.3 of the design): the 100
highest-frequency words among those that are not stopwords would filter
the frequency table first; the amended reading filters the overall
top-100 afterwards.  This definition is the amended reading, stated
independently of `process_text` for the refinement theorem. -/
def specTopWords (words stop_words : List String) : List TopWord :=
  ((mostCommon 100 (counter words)).filter
      (fun p => !(decide (p.1 ∈ stop_words)))).map
    (fun p => ⟨p.1, p.2⟩)

/-- Source lines 147-163: one `word_dictionary` record. -/
def mkWordEntry (include_embeddings : Bool) (m : Option W2V) (word_count : Nat)
    (stop_words : List String) (w : String) (c : Nat) : WordRecord :=
  let base : WordRecord :=
    { count := c
      frequency := if word_count > 0 then pyRound ((c : ℚ) / (word_count : ℚ)) 4 else 0
      is_stopword := decide (w ∈ stop_words)
      embedding := none
      embedding_dim := none
      embedding_available := none }
  if include_embeddings then
    match get_word_embedding m w with
    | some v => { base with embedding := some (some v), embedding_dim := some v.length }
    | none => { base with embedding := some none, embedding_available := some false }
  else base

/-- Source lines 146-163: the whole `word_dictionary`, keyed in
first-seen order. -/
def wordDictOf (include_embeddings : Bool) (m : Option W2V)
    (words stop_words : List String) : List (String × WordRecord) :=
  (counter words).map
    (fun p => (p.1, mkWordEntry include_embeddings m words.length stop_words p.1 p.2))

/-- The `(embeddings, words_list)` pair of source lines 168-174. -/
def embWordsOf (mm : W2V) (words stop_words : List String) :
    List (List ℚ) × List String :=
  resolveContent mm (contentWordsOf words stop_words)

/-- Source lines 189-195: one word's neighbor list, ranks 1..n-1 of its
faiss search row; a padded label `-1` Python-indexes `words_list` from
the end. -/
def buildNeighbors (words_list : List String) (row : List (ℚ × Int)) (n : Nat) :
    Except PErr (List Neighbor) :=
  ((List.range n).drop 1).mapM
    (fun j =>
      match row.get? j with
      | some (d, idx) =>
        match pyGet words_list idx with
        | some w => Except.ok ⟨w, d⟩
        | none => Except.error .indexError
      | none => Except.error .indexError)

/-- Source lines 186-196: the `words_neighbors` dict, one faiss row per
indexed word (the batch query set equals the index contents). -/
def wordsNeighborsM (db : List (List ℚ)) (words_list : List String) (n : Nat) :
    Except PErr (List (String × List Neighbor)) :=
  (List.zip db words_list).foldlM
    (fun acc p => do
      let ns ← buildNeighbors words_list (faissSearch db p.1 n) n
      pure (dictSet p.2 ns acc))
    []

/-- Source `process_text` (lines 106-220).  The faiss block of lines
179-196 is NOT guarded: when the embeddings branch of lines 167-177 is
skipped (embeddings disabled, or no model), line 180 reads the never
assigned local `embeddings` and raises UnboundLocalError; when the
branch ran but resolved no vectors, `index.add(np.array([]))` raises a
shape error. -/
def process_text (sent_tokenize word_tokenize : String → List String)
    (stop_words : List String) (word2vec_model : Option W2V)
    (text : String) (include_embeddings : Bool) : Except PErr AnalysisResult :=
  let sanitized := sanitize_text text
  let sentences := sent_tokenize sanitized
  let words := wordsOf word_tokenize text
  let word_count := words.length
  let sentence_count := sentences.length
  let avg_words_per_sentence :=
    if sentence_count > 0
    then pyRound ((word_count : ℚ) / (sentence_count : ℚ)) 2 else 0
  let char_count := (sanitized.toList.filter (fun c => !c.isWhitespace)).length
  let unique_word_count := words.dedup.length
  let avg_word_length :=
    if word_count > 0
    then pyRound (((words.map String.length).sum : ℚ) / (word_count : ℚ)) 2 else 0
  let content_words := contentWordsOf words stop_words
  match include_embeddings, word2vec_model with
  | true, some mm =>
    let embeddings := (embWordsOf mm words stop_words).1
    let words_list := (embWordsOf mm words stop_words).2
    let document_embedding :=
      if embeddings.isEmpty then none else some (npMean embeddings)
    if embeddings.isEmpty then Except.error .faissEmptyAdd
    else if embeddings.any (fun e => !(e.length == mm.vector_size)) then
      Except.error .faissDimMismatch
    else
      match wordsNeighborsM embeddings words_list 10 with
      | Except.error er => Except.error er
      | Except.ok wn =>
        Except.ok
          { statistics :=
              { word_count := word_count
                unique_word_count := unique_word_count
                sentence_count := sentence_count
                character_count := char_count
                avg_words_per_sentence := avg_words_per_sentence
                avg_word_length := avg_word_length
                content_word_count := content_words.length
                stopword_count := word_count - content_words.length }
            top_words := topWordsOf words stop_words
            sentences := sentences
            word_dictionary := wordDictOf true (some mm) words stop_words
            words_neighbors := wn
            document_embedding := document_embedding
            embedding_coverage :=
              if document_embedding.isSome then
                some (if !content_words.isEmpty then
                    pyRound
                      (((content_words.filter
                          (fun w => (get_word_embedding (some mm) w).isSome)).length : ℚ)
                        / (content_words.length : ℚ)) 2
                  else 0)
              else none }
  | _, _ => Except.error .nameErrorEmbeddings

/-- Source `generate_cache_key` lines 71-74: the exact string hashed,
`text + str(options if options else {})`.  Note `str` of a dict renders
keys in insertion order. -/
def hash_input (text : String) (options : List (String × PyVal)) : String :=
  text ++ pyDictStr options

/-- Source `generate_cache_key`: SHA-256 hex digest of `hash_input`.
The digest itself is an external deterministic function; it is a
parameter so the key derivation stays executable. -/
def generate_cache_key (digest : String → String) (text : String)
    (options : List (String × PyVal)) : String :=
  digest (hash_input text options)

/-- One entry of the in-memory cache: `{'data': ..., 'expires_at': ...}`. -/
structure CacheEntry where
  data : AnalysisResult
  expires_at : ℚ
deriving DecidableEq

/-- The module-level `cache` dict. -/
abbrev Cache := List (String × CacheEntry)

/-- Source `clean_expired_cache` lines 76-82: delete every entry with
`current_time > expires_at` (strictly). -/
def clean_expired_cache (now : ℚ) (c : Cache) : Cache :=
  c.filter (fun p => !(decide (now > p.2.expires_at)))

/-- The hit test of source line 261:
`cache_key in cache and time.time() < expires_at`. -/
def cacheHit (k : String) (now : ℚ) (c : Cache) : Option AnalysisResult :=
  match dictLookup k c with
  | some e => if now < e.expires_at then some e.data else none
  | none => none

/-- Source line 255: `options.get('include_embeddings', True)`, used as
a truthy value. -/
def optionsInclude (options : List (String × PyVal)) : Bool :=
  match dictLookup ("include_embeddings") options with
  | some v => pyTruthy v
  | none => true

/-- Responses of the `/api/process` endpoint (transport plumbing such
as JSON parsing is outside the model).  An `ok` response carries the
result payload, the `cached` flag, and the `cache_key` field when
present. -/
inductive EndpointOut
  | ok (payload : AnalysisResult) (cached : Bool) (cache_key : Option String)
  | badRequest (msg : String)
  | serverError
deriving DecidableEq

/-- Source `process_text_endpoint` lines 235-284: validate, derive the
cache key, sweep, serve an unexpired hit verbatim plus `cached: True`,
otherwise compute, store with TTL 3600 and reply with `cached: False`
and the `cache_key`.  An exception in `process_text` yields a 500 with
no cache write. -/
def process_text_endpoint (sent_tokenize word_tokenize : String → List String)
    (stop_words : List String) (word2vec_model : Option W2V)
    (digest : String → String) (now : ℚ) (c : Cache)
    (text : String) (options : List (String × PyVal)) : EndpointOut × Cache :=
  if text.length > 5 * 1024 * 1024 then (.badRequest "Text too large. Maximum 5MB", c)
  else if (pyStrip text).length = 0 then (.badRequest "Text cannot be empty", c)
  else
    let include_embeddings := optionsInclude options
    let cache_key := generate_cache_key digest text options
    let c1 := clean_expired_cache now c
    match cacheHit cache_key now c1 with
    | some d => (.ok d true none, c1)
    | none =>
      match process_text sent_tokenize word_tokenize stop_words word2vec_model
          text include_embeddings with
      | Except.error _ => (.serverError, c1)
      | Except.ok r =>
        (.ok r false (some cache_key), dictSet cache_key ⟨r, now + 3600⟩ c1)

/-- Responses of `GET /api/cached/<key>`: the payload, or one of the
two 404 variants. -/
inductive CachedGetOut
  | okData (d : AnalysisResult)
  | notFound
  | expired
deriving DecidableEq

/-- Source `get_cached` lines 396-408: sweep, 404 when absent, delete
and 404 when `now >= expires_at`, else return the payload. -/
def get_cached (now : ℚ) (c : Cache) (cache_key : String) : CachedGetOut × Cache :=
  let c1 := clean_expired_cache now c
  match dictLookup cache_key c1 with
  | none => (.notFound, c1)
  | some e =>
    if now ≥ e.expires_at then (.expired, dictDel cache_key c1)
    else (.okData e.data, c1)

/-- A response of `get_cached` that does not carry a payload (either
404), i.e. a Miss in the spec's sense. -/
def isMiss : CachedGetOut → Bool
  | .okData _ => false
  | .notFound => true
  | .expired => true

/-- Responses of `DELETE /api/cached/<key>`. -/
inductive DeleteOut
  | deleted
  | notFoundD
deriving DecidableEq

/-- Source `delete_cached` lines 410-417: delete when present (no look
at `expires_at`), 404 otherwise. -/
def delete_cached (c : Cache) (cache_key : String) : DeleteOut × Cache :=
  match dictLookup cache_key c with
  | some _ => (.deleted, dictDel cache_key c)
  | none => (.notFoundD, c)

/-- What the dictionary record of a `words_neighbors` key actually
looks like: present, with a resolved (non-null) embedding, and with the
`embedding_available` key absent. -/
def neighborRecOk (o : Option WordRecord) : Prop :=
  match o with
  | some entry =>
    entry.embedding_available = none ∧
    entry.embedding.isSome = true ∧ entry.embedding ≠ some none
  | none => False

/-- Test fixture: a sentence tokenizer returning one sentence. -/
def demoSent : String → List String := fun _ => ["s"]

/-- Test fixture: a word tokenizer producing two distinct words. -/
def demoTok2 : String → List String := fun _ => ["alpha", "beta"]

/-- Test fixture: embeddings for the two demo words, 3 apart, dimension 1. -/
def demoModel2 : W2V :=
  ⟨fun w => if w = "alpha" then some [0] else if w = "beta" then some [3] else none, 1⟩

/-- Test fixture: a model that resolves no word at all. -/
def demoModelEmpty : W2V := ⟨fun _ => none, 1⟩

/-- Test fixture: the `i`-th two-letter lowercase word (aa, ab, ac, ...). -/
def mkW (i : Nat) : String :=
  String.mk [Char.ofNat (97 + i / 26), Char.ofNat (97 + i % 26)]

/-- Test fixture: a stopword twice, 100 distinct content words once
each, and one more content word: 102 distinct words, 101 of them
content words. -/
def demoTokens4 : List String := ["the", "the"] ++ (List.range 100).map mkW ++ ["zzz"]

/-- Test fixture: tokenizer for the 103-token document. -/
def demoTok4 : String → List String := fun _ => demoTokens4

/-- Test fixture: stopword set containing just "the". -/
def demoStop4 : List String := ["the"]

/-- Test fixture: only the word "aa" has an embedding. -/
def demoModel4 : W2V := ⟨fun w => if w = "aa" then some [1] else none, 1⟩

/-- Test fixture: a placeholder result used only as a `getD` default. -/
def demoDefault : AnalysisResult :=
  ⟨⟨0, 0, 0, 0, 0, 0, 0, 0⟩, [], [], [], [], none, none⟩

/-- Test fixture: the result the model computes on the two-word demo
document. -/
def demoR2 : AnalysisResult :=
  (process_text demoSent demoTok2 [] (some demoModel2) ("doc") true).toOption.getD
    demoDefault

/-- Test fixture: options dict `{'a': 1, 'b': 2}`. -/
def demoOpts1 : List (String × PyVal) := [("a", .pint 1), ("b", .pint 2)]

/-- Test fixture: the same key-value pairs inserted in the other order. -/
def demoOpts2 : List (String × PyVal) := [("b", .pint 2), ("a", .pint 1)]

/-- Test fixture: a cache entry expiring at time 5. -/
def demoEntry5 : CacheEntry := ⟨demoDefault, 5⟩

/-- Test fixture: a one-entry cache. -/
def demoCache : Cache := [("k", demoEntry5)]

/-- Test fixture: first `/api/process` call on an empty cache (identity
digest, time 0). -/
def demoRun6a : EndpointOut × Cache :=
  process_text_endpoint demoSent demoTok2 [] (some demoModel2) (fun s => s)
    0 [] ("doc") []

/-- Test fixture: the same request again, against the cache the first
call produced. -/
def demoRun6b : EndpointOut × Cache :=
  process_text_endpoint demoSent demoTok2 [] (some demoModel2) (fun s => s)
    0 demoRun6a.2 ("doc") []

/-- The `cache_key` field of a response, when present. -/
def outCacheKey : EndpointOut → Option String
  | .ok _ _ ck => ck
  | _ => none

/-- The `cached` flag of a response, when it is an `ok` response. -/
def outCached : EndpointOut → Option Bool
  | .ok _ cfl _ => some cfl
  | _ => none

/-- The result payload of a response, when it is an `ok` response. -/
def outPayload : EndpointOut → Option AnalysisResult
  | .ok p _ _ => some p
  | _ => none

/-- Membership in a stable insertion is membership in the inserted
element or the original list. -/
theorem mem_insSorted (le : α → α → Bool) (x : α) (l : List α) (a : α) :
    a ∈ insSorted le x l ↔ a = x ∨ a ∈ l := by
  induction l with
  | nil => simp [insSorted]
  | cons y ys ih =>
    by_cases h : le x y = true
    · simp only [insSorted, h, if_true, List.mem_cons]
    · simp only [insSorted, h, if_false, List.mem_cons, ih, Bool.false_eq_true]
      tauto

/-- Insertion sort permutes membership. -/
theorem mem_isortBy (le : α → α → Bool) (l : List α) (a : α) :
    a ∈ isortBy le l ↔ a ∈ l := by
  induction l with
  | nil => simp [isortBy]
  | cons x xs ih =>
    simp only [isortBy, mem_insSorted, List.mem_cons, ih]

/-- Inserting into a sorted list keeps it sorted, given a transitive
and total boolean order. -/
theorem pairwise_insSorted (le : α → α → Bool)
    (htrans : ∀ a b c, le a b = true → le b c = true → le a c = true)
    (htot : ∀ a b, le a b = false → le b a = true)
    (x : α) (l : List α) (h : l.Pairwise (fun a b => le a b = true)) :
    (insSorted le x l).Pairwise (fun a b => le a b = true) := by
  induction l with
  | nil => simp [insSorted]
  | cons y ys ih =>
    rcases List.pairwise_cons.mp h with ⟨hy, hys⟩
    by_cases hxy : le x y = true
    · simp only [insSorted, hxy, if_true]
      refine List.pairwise_cons.mpr ⟨?_, h⟩
      intro b hb
      rcases List.mem_cons.mp hb with rfl | hb2
      · exact hxy
      · exact htrans x y b hxy (hy b hb2)
    · simp only [insSorted, hxy, if_false]
      refine List.pairwise_cons.mpr ⟨?_, ih hys⟩
      intro b hb
      rcases (mem_insSorted le x ys b).mp hb with rfl | hb2
      · exact htot b y (Bool.not_eq_true _ ▸ hxy)
      · exact hy b hb2

/-- Insertion sort sorts, given a transitive and total boolean order. -/
theorem pairwise_isortBy (le : α → α → Bool)
    (htrans : ∀ a b c, le a b = true → le b c = true → le a c = true)
    (htot : ∀ a b, le a b = false → le b a = true)
    (l : List α) : (isortBy le l).Pairwise (fun a b => le a b = true) := by
  induction l with
  | nil => simp [isortBy]
  | cons x xs ih => exact pairwise_insSorted le htrans htot x _ ih

/-- A key is found exactly when it occurs among the stored keys. -/
theorem dictLookup_isSome_iff_mem (k : String) (d : List (String × β)) :
    (dictLookup k d).isSome = true ↔ k ∈ d.map Prod.fst := by
  induction d with
  | nil => simp [dictLookup]
  | cons p rest ih =>
    obtain ⟨k2, v⟩ := p
    by_cases h : k2 = k
    · subst h; simp [dictLookup]
    · simp only [dictLookup, h, if_false, List.map_cons, List.mem_cons, ih]
      constructor
      · exact Or.inr
      · rintro (rfl | hm)
        · exact absurd rfl h
        · exact hm

/-- Assigning a key makes it found with the assigned value. -/
theorem dictLookup_dictSet_self (k : String) (v : β) (d : List (String × β)) :
    dictLookup k (dictSet k v d) = some v := by
  induction d with
  | nil => simp [dictSet, dictLookup]
  | cons p rest ih =>
    obtain ⟨k2, v2⟩ := p
    by_cases h : k2 = k
    · simp [dictSet, dictLookup, h]
    · simp [dictSet, dictLookup, h, ih]

/-- Keys after an assignment come from the assigned key or the old
keys. -/
theorem mem_keys_dictSet (x k : String) (v : β) (d : List (String × β))
    (h : x ∈ (dictSet k v d).map Prod.fst) :
    x = k ∨ x ∈ d.map Prod.fst := by
  induction d with
  | nil => simpa [dictSet] using h
  | cons p rest ih =>
    obtain ⟨k2, v2⟩ := p
    by_cases h2 : k2 = k
    · subst h2
      simpa [dictSet] using h
    · simp only [dictSet, h2, if_false, List.map_cons, List.mem_cons] at h
      rcases h with rfl | h3
      · exact Or.inr (by simp)
      · rcases ih h3 with h4 | h4
        · exact Or.inl h4
        · exact Or.inr (by simp [h4])

/-- Assignment preserves distinctness of keys. -/
theorem nodup_keys_dictSet (k : String) (v : β) (d : List (String × β))
    (h : (d.map Prod.fst).Nodup) : ((dictSet k v d).map Prod.fst).Nodup := by
  induction d with
  | nil => simp [dictSet]
  | cons p rest ih =>
    obtain ⟨k2, v2⟩ := p
    simp only [List.map_cons, List.nodup_cons] at h
    by_cases h2 : k2 = k
    · subst h2
      rw [show dictSet k2 v ((k2, v2) :: rest) = (k2, v) :: rest from by simp [dictSet]]
      simp only [List.map_cons, List.nodup_cons]
      exact h
    · simp only [dictSet, h2, if_false, List.map_cons, List.nodup_cons]
      refine ⟨fun hmem => ?_, ih h.2⟩
      rcases mem_keys_dictSet k2 k v rest hmem with rfl | h3
      · exact h2 rfl
      · exact h.1 h3

/-- A key is found after an assignment exactly when it is the assigned
key or was already found. -/
theorem dictLookup_isSome_dictSet (x k : String) (v : β) (d : List (String × β)) :
    (dictLookup x (dictSet k v d)).isSome = true ↔
      x = k ∨ (dictLookup x d).isSome = true := by
  induction d with
  | nil =>
    simp only [dictSet, dictLookup]
    by_cases h : k = x
    · subst h; simp
    · have h3 : ¬ x = k := fun hh => h hh.symm
      simp [h, h3]
  | cons p rest ih =>
    obtain ⟨k2, v2⟩ := p
    by_cases h2 : k2 = k
    · subst h2
      by_cases h3 : k2 = x
      · subst h3; simp [dictSet, dictLookup]
      · have h4 : ¬ x = k2 := fun hh => h3 hh.symm
        simp [dictSet, dictLookup, h3, h4]
    · by_cases h3 : k2 = x
      · subst h3; simp [dictSet, dictLookup, h2]
      · simp [dictSet, dictLookup, h2, h3, ih]

/-- Looking up a missing key yields `none`. -/
theorem dictLookup_eq_none_of_not_mem (k : String) (d : List (String × β))
    (h : ¬ k ∈ d.map Prod.fst) : dictLookup k d = none := by
  cases hl : dictLookup k d with
  | none => rfl
  | some v =>
    exact absurd ((dictLookup_isSome_iff_mem k d).mp (by simp [hl])) h

/-- The keys of a filtered dict form a sublist of the original keys. -/
theorem keys_filter_sublist (p : String × β → Bool) (d : List (String × β)) :
    ((d.filter p).map Prod.fst).Sublist (d.map Prod.fst) :=
  (List.filter_sublist d).map Prod.fst

/-- With distinct keys, looking up in a filtered dict is looking up and
then testing the predicate. -/
theorem dictLookup_filter_nodup (p : String × β → Bool) (k : String)
    (d : List (String × β)) (hnd : (d.map Prod.fst).Nodup) :
    dictLookup k (d.filter p) =
      match dictLookup k d with
      | some v => if p (k, v) then some v else none
      | none => none := by
  induction d with
  | nil => simp [dictLookup]
  | cons q rest ih =>
    obtain ⟨k2, v2⟩ := q
    simp only [List.map_cons, List.nodup_cons] at hnd
    by_cases h : k2 = k
    · subst h
      by_cases hp : p (k2, v2) = true
      · simp [dictLookup, hp]
      · have hnone : dictLookup k2 (rest.filter p) = none := by
          apply dictLookup_eq_none_of_not_mem
          intro hmem
          exact hnd.1 ((keys_filter_sublist p rest).mem hmem)
        simp [dictLookup, hp, hnone]
    · by_cases hp : p (k2, v2) = true
      · simp [dictLookup, hp, h, ih hnd.2]
      · simp [dictLookup, hp, h, ih hnd.2]

/-- Deleting a key removes every binding of it. -/
theorem dictLookup_dictDel_self (k : String) (d : List (String × β)) :
    dictLookup k (dictDel k d) = none := by
  induction d with
  | nil => rfl
  | cons q rest ih =>
    obtain ⟨k2, v2⟩ := q
    by_cases h : k2 = k
    · simpa [dictDel, h] using ih
    · simpa [dictDel, dictLookup, h] using ih

/-- Bumping a count creates or keeps exactly the bumped key. -/
theorem mem_keys_counterInsert (x w : String) (d : List (String × Nat)) :
    x ∈ (counterInsert w d).map Prod.fst ↔ x = w ∨ x ∈ d.map Prod.fst := by
  induction d with
  | nil => simp [counterInsert]
  | cons p rest ih =>
    obtain ⟨k2, c⟩ := p
    by_cases h : k2 = w
    · subst h; simp [counterInsert]
    · simp [counterInsert, h, ih]
      tauto

/-- The keys of a counter are exactly the counted words. -/
theorem mem_keys_counter (x : String) (ws : List String) :
    x ∈ (counter ws).map Prod.fst ↔ x ∈ ws := by
  have haux : ∀ (l : List String) (acc : List (String × Nat)),
      x ∈ ((l.foldl (fun a w => counterInsert w a) acc).map Prod.fst) ↔
        x ∈ acc.map Prod.fst ∨ x ∈ l := by
    intro l
    induction l with
    | nil => intro acc; simp
    | cons w l2 ih =>
      intro acc
      simp only [List.foldl_cons, ih, mem_keys_counterInsert, List.mem_cons]
      tauto
  simpa using haux ws []

/-- A counted word is found in its counter. -/
theorem dictLookup_counter_isSome (x : String) (ws : List String) (h : x ∈ ws) :
    (dictLookup x (counter ws)).isSome = true :=
  (dictLookup_isSome_iff_mem x (counter ws)).mpr ((mem_keys_counter x ws).mpr h)

/-- Every counter entry's key is one of the counted words. -/
theorem counter_entry_mem (p : String × Nat) (ws : List String)
    (h : p ∈ counter ws) : p.1 ∈ ws :=
  (mem_keys_counter p.1 ws).mp (List.mem_map_of_mem Prod.fst h)

/-- Looking up in a key-preserving mapped dict is mapping the lookup. -/
theorem dictLookup_map_pair (f : String → Nat → β) (l : List (String × Nat))
    (k : String) :
    dictLookup k (l.map (fun p => (p.1, f p.1 p.2))) =
      match dictLookup k l with
      | some c => some (f k c)
      | none => none := by
  induction l with
  | nil => rfl
  | cons p rest ih =>
    obtain ⟨k2, c⟩ := p
    by_cases h : k2 = k
    · subst h; simp [dictLookup]
    · simp [dictLookup, h, ih]

/-- A word collected into `words_list` is a content word whose
embedding resolved. -/
theorem mem_resolveContent (m : W2V) (cw : List String) (w : String)
    (h : w ∈ (resolveContent m cw).2) :
    w ∈ cw ∧ (get_word_embedding (some m) w).isSome = true := by
  induction cw with
  | nil => simp [resolveContent] at h
  | cons u rest ih =>
    simp only [resolveContent] at h
    cases he : get_word_embedding (some m) u with
    | some e =>
      rw [he] at h
      rcases List.mem_cons.mp h with rfl | h2
      · exact ⟨by simp, by simp [he]⟩
      · rcases ih h2 with ⟨h3, h4⟩
        exact ⟨by simp [h3], h4⟩
    | none =>
      rw [he] at h
      rcases ih h with ⟨h3, h4⟩
      exact ⟨by simp [h3], h4⟩

/-- Appending to two strings yields equal results exactly when the
suffixes are equal. -/
theorem string_append_cancel_left (a b c : String) : a ++ b = a ++ c ↔ b = c := by
  constructor
  · intro h
    have h2 : (a ++ b).data = (a ++ c).data := congrArg String.data h
    rw [String.data_append, String.data_append] at h2
    have h3 := List.append_cancel_left h2
    cases b; cases c
    exact congrArg String.mk h3
  · intro h; rw [h]

/-- Fold invariant: keys of the accumulated neighbors dict come from
the accumulator or the second components of the remaining pairs. -/
theorem wordsNeighborsM_keys_aux (db : List (List ℚ)) (words_list : List String)
    (n : Nat) (l : List (List ℚ × String)) :
    ∀ (acc wn : List (String × List Neighbor)),
      (List.foldlM (fun acc2 p => do
          let ns ← buildNeighbors words_list (faissSearch db p.1 n) n
          pure (dictSet p.2 ns acc2)) acc l) = Except.ok wn →
      ∀ w, (dictLookup w wn).isSome = true →
        (dictLookup w acc).isSome = true ∨ w ∈ l.map Prod.snd := by
  induction l with
  | nil =>
    intro acc wn h w hw
    simp only [List.foldlM_nil] at h
    cases h
    exact Or.inl hw
  | cons p rest ih =>
    intro acc wn h w hw
    simp only [List.foldlM_cons] at h
    cases hb : buildNeighbors words_list (faissSearch db p.1 n) n with
    | error e =>
      rw [hb] at h
      have h2 : (Except.error e : Except PErr (List (String × List Neighbor))) =
          Except.ok wn := h
      cases h2
    | ok ns =>
      rw [hb] at h
      rcases ih (dictSet p.2 ns acc) wn h w hw with h2 | h2
      · rcases (dictLookup_isSome_dictSet w p.2 ns acc).mp h2 with h3 | h3
        · exact Or.inr (by simp [h3])
        · exact Or.inl h3
      · exact Or.inr (by simp [h2])

/-- Every key of `words_neighbors` is one of the indexed words. -/
theorem wordsNeighborsM_keys (db : List (List ℚ)) (wl : List String) (n : Nat)
    (wn : List (String × List Neighbor))
    (h : wordsNeighborsM db wl n = Except.ok wn)
    (w : String) (hw : (dictLookup w wn).isSome = true) : w ∈ wl := by
  rcases wordsNeighborsM_keys_aux db wl n (List.zip db wl) [] wn h w hw with h2 | h2
  · simp [dictLookup] at h2
  · rcases List.mem_map.mp h2 with ⟨q, hq, hq2⟩
    obtain ⟨qv, qw⟩ := q
    cases hq2
    exact (List.of_mem_zip hq).2

/-- Inverting a successful `process_text`: the embeddings branch must
have run (embeddings on, model loaded), and the result carries the
computed `top_words`, `word_dictionary`, and `words_neighbors`. -/
theorem process_text_ok_inv (st wt : String → List String) (sw : List String)
    (m : Option W2V) (text : String) (ie : Bool) (r : AnalysisResult)
    (hok : process_text st wt sw m text ie = Except.ok r) :
    ∃ mm, ie = true ∧ m = some mm ∧
      r.top_words = topWordsOf (wordsOf wt text) sw ∧
      r.word_dictionary = wordDictOf true (some mm) (wordsOf wt text) sw ∧
      wordsNeighborsM (embWordsOf mm (wordsOf wt text) sw).1
        (embWordsOf mm (wordsOf wt text) sw).2 10 = Except.ok r.words_neighbors := by
  cases ie with
  | false => exact absurd hok (by simp [process_text])
  | true =>
    cases m with
    | none => exact absurd hok (by simp [process_text])
    | some mm =>
      refine ⟨mm, rfl, rfl, ?_⟩
      simp only [process_text] at hok
      by_cases he : (embWordsOf mm (wordsOf wt text) sw).1.isEmpty = true
      · rw [if_pos he] at hok; cases hok
      · rw [if_neg he] at hok
        by_cases hd : (embWordsOf mm (wordsOf wt text) sw).1.any
            (fun e => !(e.length == mm.vector_size)) = true
        · rw [if_pos hd] at hok; cases hok
        · rw [if_neg hd] at hok
          cases hwn : wordsNeighborsM (embWordsOf mm (wordsOf wt text) sw).1
              (embWordsOf mm (wordsOf wt text) sw).2 10 with
          | error e2 => rw [hwn] at hok; cases hok
          | ok wn =>
            rw [hwn] at hok
            injection hok with h
            subst h
            exact ⟨rfl, rfl, rfl⟩

/-- On entries of the frequency table, membership in `content_words`
(the filter the source uses) is just "not a stopword". -/
theorem topWordsOf_eq_spec (words sw : List String) :
    topWordsOf words sw = specTopWords words sw := by
  unfold topWordsOf specTopWords
  congr 1
  apply List.filter_congr
  intro p hp
  have hpc : p ∈ counter words := by
    have h1 : p ∈ isortBy (fun a b => decide (b.2 ≤ a.2)) (counter words) :=
      (List.take_sublist 100 _).subset hp
    exact (mem_isortBy _ _ p).mp h1
  have hpw : p.1 ∈ words := counter_entry_mem p words hpc
  by_cases hs : p.1 ∈ sw
  · simp [contentWordsOf, List.mem_filter, hs]
  · simp [contentWordsOf, List.mem_filter, hs, hpw]

/-- The boolean order used by `most_common` is transitive. -/
theorem mcLe_trans (a b c : String × Nat)
    (h1 : decide (b.2 ≤ a.2) = true) (h2 : decide (c.2 ≤ b.2) = true) :
    decide (c.2 ≤ a.2) = true := by
  simp only [decide_eq_true_eq] at *
  exact le_trans h2 h1

/-- The boolean order used by `most_common` is total. -/
theorem mcLe_tot (a b : String × Nat) (h : decide (b.2 ≤ a.2) = false) :
    decide (a.2 ≤ b.2) = true := by
  simp only [decide_eq_false_iff_not] at h
  simp only [decide_eq_true_eq]
  exact le_of_not_le h

/-- `most_common` output is sorted by non-increasing count. -/
theorem mostCommon_pairwise (n : Nat) (freq : List (String × Nat)) :
    (mostCommon n freq).Pairwise (fun a b => b.2 ≤ a.2) := by
  have h1 := pairwise_isortBy (fun a b : String × Nat => decide (b.2 ≤ a.2))
    mcLe_trans mcLe_tot freq
  have h2 : (mostCommon n freq).Pairwise
      (fun a b : String × Nat => decide (b.2 ≤ a.2) = true) :=
    List.Pairwise.sublist (List.take_sublist n _) h1
  exact h2.imp (fun h => by simpa using h)

/-- Claim C1: the spec says that with embeddings disabled, or no
provider, or no resolvable content word, `process_text` still returns a
statistics-only result with empty `words_neighbors`.  The code instead
fails in all three situations: the unguarded faiss block reads the
never-assigned local `embeddings` (UnboundLocalError) in the first two,
and feeds an empty vector set to the index in the third. -/
theorem process_text_fails_without_embedding_branch :
    (∀ (st wt : String → List String) (sw : List String) (m : Option W2V)
        (text : String),
        process_text st wt sw m text false = Except.error PErr.nameErrorEmbeddings) ∧
    (∀ (st wt : String → List String) (sw : List String) (text : String)
        (ie : Bool),
        process_text st wt sw none text ie = Except.error PErr.nameErrorEmbeddings) ∧
    process_text demoSent demoTok2 [] (some demoModelEmpty) ("doc") true =
      Except.error PErr.faissEmptyAdd := by
  refine ⟨?_, ?_, ?_⟩
  · intro st wt sw m text
    simp [process_text]
  · intro st wt sw text ie
    cases ie <;> simp [process_text]
  · rfl

/-- Claim C2: the spec says a word of a document with `k ≥ 2` indexed
words gets exactly `min(9, k-1)` neighbors.  At the failing input the
document has exactly 2 indexed words, yet the code emits 9 entries: the
8 missing faiss results are padding with label `-1` (which Python
indexing turns into the last indexed word) at the FLT_MAX model
distance. -/
theorem neighbor_list_padded_to_nine :
    (embWordsOf demoModel2 (wordsOf demoTok2 ("doc")) []).2.length = 2 ∧
    ((process_text demoSent demoTok2 [] (some demoModel2) ("doc") true).toOption.bind
        (fun r => dictLookup ("alpha") r.words_neighbors)).map List.length =
      some 9 ∧
    ((process_text demoSent demoTok2 [] (some demoModel2) ("doc") true).toOption.bind
        (fun r => dictLookup ("alpha") r.words_neighbors)).map
        (fun l => l.map Neighbor.distance) =
      some ([9] ++ List.replicate 8 FAISS_PAD_DIST) := by
  with_unfolding_all exact ⟨rfl, rfl, rfl⟩

/-- Claim C3 (counterexample): the two option dicts hold the same
key-value pairs in different insertion order, yet already the strings
fed to SHA-256 differ, so the cache keys differ for any injective
digest (here witnessed by the identity digest). -/
theorem cache_key_depends_on_option_order :
    demoOpts1.Perm demoOpts2 ∧
    generate_cache_key (fun s => s) ("x") demoOpts1 ≠
      generate_cache_key (fun s => s) ("x") demoOpts2 := by
  exact ⟨by decide, by decide⟩

/-- Claim C3 (amended): the fingerprint is a function of the text and
the order-sensitive `str()` rendering of the options dict: for a fixed
text, the digest inputs coincide exactly when the rendered dicts
coincide, so reordering keys of semantically equal options changes the
digest input. -/
theorem cache_key_input_characterization (t : String)
    (o1 o2 : List (String × PyVal)) :
    hash_input t o1 = hash_input t o2 ↔ pyDictStr o1 = pyDictStr o2 := by
  unfold hash_input
  exact string_append_cancel_left t (pyDictStr o1) (pyDictStr o2)

/-- Witness for the digest-input characterization at concrete options. -/
theorem cache_key_input_characterization_witness :
    hash_input ("x") demoOpts1 = hash_input ("x") demoOpts1 :=
  (cache_key_input_characterization ("x") demoOpts1 demoOpts1).mpr rfl

/-- Claim C4 (counterexample): the demo document has 101 distinct
non-stopword words, at least 100, yet `top_words` has only 99 entries:
the stopword occupies one of the overall top-100 ranking slots before
being filtered away, and the 100th content word never enters the list. -/
theorem top_words_misses_content_words :
    ((counter (wordsOf demoTok4 ("doc"))).filter
        (fun p => !(decide (p.1 ∈ demoStop4)))).length = 101 ∧
    (process_text demoSent demoTok4 demoStop4 (some demoModel4) ("doc") true).toOption.map
        (fun r => r.top_words.length) = some 99 := by
  with_unfolding_all exact ⟨rfl, rfl⟩

/-- Claim C4 (amended): `top_words` equals the non-stopword filter of
the overall top-100 of the frequency table (ties in first-seen order);
consequently it has at most 100 entries, contains no stopword, and is
sorted by non-increasing count — but it is not the top-100 of the
non-stopword words. -/
theorem top_words_characterization (st wt : String → List String)
    (sw : List String) (m : Option W2V) (text : String) (ie : Bool)
    (r : AnalysisResult)
    (hok : process_text st wt sw m text ie = Except.ok r) :
    r.top_words = specTopWords (wordsOf wt text) sw ∧
    r.top_words.length ≤ 100 ∧
    (∀ p ∈ r.top_words, ¬ p.word ∈ sw) ∧
    r.top_words.Pairwise (fun a b => b.count ≤ a.count) := by
  obtain ⟨mm, hie, hm, htw, hwd, hwn⟩ := process_text_ok_inv st wt sw m text ie r hok
  rw [htw, topWordsOf_eq_spec]
  refine ⟨rfl, ?_, ?_, ?_⟩
  · calc (specTopWords (wordsOf wt text) sw).length
        = ((mostCommon 100 (counter (wordsOf wt text))).filter
            (fun p => !(decide (p.1 ∈ sw)))).length := by
          simp [specTopWords]
    _ ≤ (mostCommon 100 (counter (wordsOf wt text))).length :=
          List.length_filter_le _ _
    _ ≤ 100 := by simp [mostCommon, List.length_take]
  · intro p hp
    rcases List.mem_map.mp hp with ⟨q, hq, rfl⟩
    have hqf := (List.mem_filter.mp hq).2
    simpa using hqf
  · refine List.Pairwise.map _ (fun a b h => ?_)
      (List.Pairwise.filter _ (mostCommon_pairwise 100 _))
    exact h

/-- Witness for the `top_words` characterization on the two-word demo
document. -/
theorem top_words_characterization_witness :
    demoR2.top_words = specTopWords (wordsOf demoTok2 ("doc")) [] ∧
    demoR2.top_words.length ≤ 100 ∧
    (∀ p ∈ demoR2.top_words, ¬ p.word ∈ ([] : List String)) ∧
    demoR2.top_words.Pairwise (fun a b => b.count ≤ a.count) :=
  top_words_characterization demoSent demoTok2 [] (some demoModel2) ("doc") true
    demoR2 (by with_unfolding_all rfl)

/-- Claim C5 (counterexample): "alpha" is a key of `words_neighbors` of
the demo result, but its dictionary record has NO `embedding_available`
key at all (the source only ever writes `embedding_available = False`,
for unresolved words), rather than `embedding_available = true`. -/
theorem words_neighbors_record_lacks_available_flag :
    ((process_text demoSent demoTok2 [] (some demoModel2) ("doc") true).toOption.bind
        (fun r => dictLookup ("alpha") r.words_neighbors)).isSome = true ∧
    ((process_text demoSent demoTok2 [] (some demoModel2) ("doc") true).toOption.bind
        (fun r => dictLookup ("alpha") r.word_dictionary)).map
        WordRecord.embedding_available = some none := by
  with_unfolding_all exact ⟨rfl, rfl⟩

/-- Claim C5 (amended): every key of `words_neighbors` appears in
`word_dictionary` with a resolved, non-null embedding; but its
`embedding_available` field is absent (never `true`). -/
theorem words_neighbors_key_in_dictionary (st wt : String → List String)
    (sw : List String) (m : Option W2V) (text : String) (ie : Bool)
    (r : AnalysisResult) (hok : process_text st wt sw m text ie = Except.ok r)
    (w : String) (hw : (dictLookup w r.words_neighbors).isSome = true) :
    neighborRecOk (dictLookup w r.word_dictionary) := by
  obtain ⟨mm, hie, hm, htw, hwd, hwn⟩ := process_text_ok_inv st wt sw m text ie r hok
  have hwl : w ∈ (embWordsOf mm (wordsOf wt text) sw).2 :=
    wordsNeighborsM_keys _ _ 10 r.words_neighbors hwn w hw
  have hcw := mem_resolveContent mm (contentWordsOf (wordsOf wt text) sw) w hwl
  have hwords : w ∈ wordsOf wt text := (List.mem_filter.mp hcw.1).1
  rcases Option.isSome_iff_exists.mp hcw.2 with ⟨v, hv⟩
  rcases Option.isSome_iff_exists.mp
    (dictLookup_counter_isSome w _ hwords) with ⟨c, hc⟩
  rw [hwd]
  unfold wordDictOf
  rw [dictLookup_map_pair
    (fun k cnt => mkWordEntry true (some mm) (wordsOf wt text).length sw k cnt)
    (counter (wordsOf wt text)) w, hc]
  simp only [neighborRecOk, mkWordEntry, hv, if_true]
  simp

/-- Witness for the neighbors-dictionary invariant on the demo
document. -/
theorem words_neighbors_key_in_dictionary_witness :
    neighborRecOk (dictLookup ("alpha") demoR2.word_dictionary) :=
  words_neighbors_key_in_dictionary demoSent demoTok2 [] (some demoModel2)
    ("doc") true demoR2 (by with_unfolding_all rfl) ("alpha")
    (by with_unfolding_all rfl)

/-- With distinct keys, looking up after the sweep is looking up and
then testing the strict expiry condition the code uses. -/
theorem dictLookup_clean (now : ℚ) (c : Cache) (k : String)
    (hnd : (c.map Prod.fst).Nodup) :
    dictLookup k (clean_expired_cache now c) =
      match dictLookup k c with
      | some e => if now > e.expires_at then none else some e
      | none => none := by
  have hcl := dictLookup_filter_nodup
    (fun p => !(decide (now > p.2.expires_at))) k c hnd
  rw [clean_expired_cache, hcl]
  cases dictLookup k c with
  | none => rfl
  | some e =>
    by_cases h : now > e.expires_at
    · simp [h]
    · simp [h]

/-- Claim C7 (counterexample): an entry whose `expires_at` equals the
sweep time (both 5) satisfies `expires_at ≤ now`, so the claim says the
sweep removes it; the code keeps it, testing `now > expires_at`
strictly. -/
theorem sweep_keeps_boundary_entry :
    demoEntry5.expires_at ≤ 5 ∧
    clean_expired_cache 5 demoCache = demoCache := by
  constructor
  · decide
  · with_unfolding_all rfl

/-- Claim C7 (amended): the sweep removes exactly the entries with
`expires_at < now` (strict); boundary entries with `expires_at = now`
survive the sweep. -/
theorem sweep_removes_strictly_expired (now : ℚ) (c : Cache)
    (p : String × CacheEntry) :
    p ∈ clean_expired_cache now c ↔ p ∈ c ∧ ¬ now > p.2.expires_at := by
  simp [clean_expired_cache, List.mem_filter]

/-- Witness: the boundary entry of the demo cache survives the sweep at
its own expiry instant. -/
theorem sweep_removes_strictly_expired_witness :
    ("k", demoEntry5) ∈ clean_expired_cache 5 demoCache :=
  (sweep_removes_strictly_expired 5 demoCache ("k", demoEntry5)).mpr
    ⟨by simp [demoCache], by decide⟩

/-- Claim C8: a cache get returns Miss when the key is absent or
`now ≥ expires_at`; an expired present entry is removed as a side
effect; and a returned payload always comes from an entry with
`now < expires_at` (the boundary `now = expires_at` is a Miss). -/
theorem get_cached_miss_semantics (now : ℚ) (c : Cache) (k : String)
    (hnd : (c.map Prod.fst).Nodup) :
    (dictLookup k c = none → (get_cached now c k).1 = CachedGetOut.notFound) ∧
    (∀ e : CacheEntry, dictLookup k c = some e → now ≥ e.expires_at →
      isMiss (get_cached now c k).1 = true ∧
      dictLookup k (get_cached now c k).2 = none) ∧
    (∀ (e : CacheEntry) (d : AnalysisResult), dictLookup k c = some e →
      (get_cached now c k).1 = CachedGetOut.okData d →
      now < e.expires_at ∧ d = e.data) := by
  refine ⟨?_, ?_, ?_⟩
  · intro h0
    have h1 : dictLookup k (clean_expired_cache now c) = none := by
      rw [dictLookup_clean now c k hnd, h0]
    simp [get_cached, h1]
  · intro e he hexp
    have h1 : dictLookup k (clean_expired_cache now c) =
        if now > e.expires_at then none else some e := by
      rw [dictLookup_clean now c k hnd, he]
    by_cases hgt : now > e.expires_at
    · rw [if_pos hgt] at h1
      refine ⟨by simp [get_cached, h1, isMiss], ?_⟩
      have h2 : (get_cached now c k).2 = clean_expired_cache now c := by
        simp [get_cached, h1]
      rw [h2]
      exact h1
    · rw [if_neg hgt] at h1
      refine ⟨by simp [get_cached, h1, hexp, isMiss], ?_⟩
      have h2 : (get_cached now c k).2 = dictDel k (clean_expired_cache now c) := by
        simp [get_cached, h1, hexp]
      rw [h2]
      exact dictLookup_dictDel_self k _
  · intro e d he hres
    have h1 : dictLookup k (clean_expired_cache now c) =
        if now > e.expires_at then none else some e := by
      rw [dictLookup_clean now c k hnd, he]
    by_cases hgt : now > e.expires_at
    · rw [if_pos hgt] at h1
      simp [get_cached, h1] at hres
    · rw [if_neg hgt] at h1
      by_cases hge : now ≥ e.expires_at
      · simp [get_cached, h1, hge] at hres
      · simp [get_cached, h1, hge] at hres
        exact ⟨lt_of_not_ge hge, hres.symm⟩

/-- Witness: an expired-but-unswept entry (expires 5, read at 10) is a
Miss and is removed by the get. -/
theorem get_cached_miss_semantics_witness :
    isMiss (get_cached 10 demoCache ("k")).1 = true ∧
    dictLookup ("k") (get_cached 10 demoCache ("k")).2 = none :=
  (get_cached_miss_semantics 10 demoCache ("k") (by simp [demoCache])).2.1
    demoEntry5 rfl (by decide)

/-- Claim C9: a hit on an unexpired entry is read-only on that entry,
both for `get_cached` and for the processing endpoint's cache path: the
payload is returned verbatim and the entry (payload and `expires_at`)
is unchanged, so the TTL is never refreshed by a read. -/
theorem cache_hit_read_only (now : ℚ) (c : Cache) (k : String) (e : CacheEntry)
    (hnd : (c.map Prod.fst).Nodup)
    (hlook : dictLookup k c = some e) (hfresh : now < e.expires_at) :
    ((get_cached now c k).1 = CachedGetOut.okData e.data ∧
      dictLookup k (get_cached now c k).2 = some e) ∧
    (∀ (st wt : String → List String) (sw : List String) (m : Option W2V)
        (digest : String → String) (text : String)
        (opts : List (String × PyVal)),
      ¬ text.length > 5 * 1024 * 1024 → ¬ (pyStrip text).length = 0 →
      generate_cache_key digest text opts = k →
      (process_text_endpoint st wt sw m digest now c text opts).1 =
        EndpointOut.ok e.data true none ∧
      dictLookup k (process_text_endpoint st wt sw m digest now c text opts).2 =
        some e) := by
  have h1 : dictLookup k (clean_expired_cache now c) = some e := by
    rw [dictLookup_clean now c k hnd, hlook]
    show (if now > e.expires_at then none else some e) = some e
    rw [if_neg (lt_asymm hfresh)]
  have hnge : ¬ now ≥ e.expires_at := not_le.mpr hfresh
  constructor
  · constructor
    · simp [get_cached, h1, hnge]
    · have h2 : (get_cached now c k).2 = clean_expired_cache now c := by
        simp [get_cached, h1, hnge]
      rw [h2]
      exact h1
  · intro st wt sw m digest text opts hlen hne hkey
    have hhit : cacheHit (generate_cache_key digest text opts) now
        (clean_expired_cache now c) = some e.data := by
      rw [hkey]
      simp [cacheHit, h1, hfresh]
    constructor
    · simp [process_text_endpoint, hlen, hne, hhit]
    · have h3 : (process_text_endpoint st wt sw m digest now c text opts).2 =
          clean_expired_cache now c := by
        simp [process_text_endpoint, hlen, hne, hhit]
      rw [h3]
      exact h1

/-- Witness: a hit at time 1 on the entry expiring at 5 returns its
payload and leaves the entry intact, on both read paths. -/
theorem cache_hit_read_only_witness :
    ((get_cached 1 demoCache ("k")).1 = CachedGetOut.okData demoEntry5.data ∧
      dictLookup ("k") (get_cached 1 demoCache ("k")).2 = some demoEntry5) ∧
    ((process_text_endpoint demoSent demoTok2 [] (some demoModel2)
        (fun _ => "k") 1 demoCache ("x") []).1 =
      EndpointOut.ok demoEntry5.data true none ∧
      dictLookup ("k") (process_text_endpoint demoSent demoTok2 []
        (some demoModel2) (fun _ => "k") 1 demoCache ("x") []).2 =
        some demoEntry5) := by
  have h := cache_hit_read_only 1 demoCache ("k") demoEntry5
    (by simp [demoCache]) rfl (by decide)
  exact ⟨h.1, h.2 demoSent demoTok2 [] (some demoModel2) (fun _ => "k") ("x") []
    (by decide) (by decide) rfl⟩

/-- Claim C6 (counterexample): running the same request twice, both
responses carry the same `AnalysisResult` payload and the cached flags
are false then true — but excluding only the cached indicator the
payloads still differ: the first (miss) response has a `cache_key`
field, the cached response omits it. -/
theorem cached_response_omits_cache_key :
    outCached demoRun6a.1 = some false ∧
    outCached demoRun6b.1 = some true ∧
    outPayload demoRun6a.1 = outPayload demoRun6b.1 ∧
    outCacheKey demoRun6a.1 = some (hash_input ("doc") []) ∧
    outCacheKey demoRun6b.1 = none ∧
    (some (hash_input ("doc") []) : Option String) ≠ none := by
  refine ⟨?_, ?_, ?_, ?_, ?_, by simp⟩ <;> with_unfolding_all rfl

/-- Claim C6 (amended): re-requesting (same text and options) inside
the TTL serves the stored result: the second response's cached flag is
true, its `AnalysisResult` payload equals the first response's, and the
only further difference is that the miss response also carries the
`cache_key` field, which the cached response omits. -/
theorem second_request_served_from_cache (st wt : String → List String)
    (sw : List String) (m : Option W2V) (digest : String → String)
    (text : String) (opts : List (String × PyVal)) (now1 now2 : ℚ) (c0 : Cache)
    (r : AnalysisResult)
    (hnd : (c0.map Prod.fst).Nodup)
    (hlen : ¬ text.length > 5 * 1024 * 1024)
    (hne : ¬ (pyStrip text).length = 0)
    (hmiss : cacheHit (generate_cache_key digest text opts) now1
      (clean_expired_cache now1 c0) = none)
    (hp : process_text st wt sw m text (optionsInclude opts) = Except.ok r)
    (h2 : now2 < now1 + 3600) :
    (process_text_endpoint st wt sw m digest now1 c0 text opts).1 =
      EndpointOut.ok r false (some (generate_cache_key digest text opts)) ∧
    (process_text_endpoint st wt sw m digest now2
        (process_text_endpoint st wt sw m digest now1 c0 text opts).2
        text opts).1 =
      EndpointOut.ok r true none := by
  have hout1 : process_text_endpoint st wt sw m digest now1 c0 text opts =
      (EndpointOut.ok r false (some (generate_cache_key digest text opts)),
        dictSet (generate_cache_key digest text opts)
          (⟨r, now1 + 3600⟩ : CacheEntry) (clean_expired_cache now1 c0)) := by
    simp [process_text_endpoint, hlen, hne, hmiss, hp]
  refine ⟨by rw [hout1], ?_⟩
  rw [hout1]
  have hnd1 : ((clean_expired_cache now1 c0).map Prod.fst).Nodup :=
    (keys_filter_sublist _ c0).nodup hnd
  have hnd2 := nodup_keys_dictSet (generate_cache_key digest text opts)
    (⟨r, now1 + 3600⟩ : CacheEntry) (clean_expired_cache now1 c0) hnd1
  have h1 : dictLookup (generate_cache_key digest text opts)
      (clean_expired_cache now2
        (dictSet (generate_cache_key digest text opts)
          (⟨r, now1 + 3600⟩ : CacheEntry) (clean_expired_cache now1 c0))) =
      some (⟨r, now1 + 3600⟩ : CacheEntry) := by
    rw [dictLookup_clean now2 _ _ hnd2, dictLookup_dictSet_self]
    show (if now2 > (⟨r, now1 + 3600⟩ : CacheEntry).expires_at then none
        else some (⟨r, now1 + 3600⟩ : CacheEntry)) =
      some (⟨r, now1 + 3600⟩ : CacheEntry)
    rw [if_neg (show ¬ now2 > (⟨r, now1 + 3600⟩ : CacheEntry).expires_at from
      lt_asymm h2)]
  have hhit2 : cacheHit (generate_cache_key digest text opts) now2
      (clean_expired_cache now2
        (dictSet (generate_cache_key digest text opts)
          (⟨r, now1 + 3600⟩ : CacheEntry) (clean_expired_cache now1 c0))) =
      some r := by
    simp [cacheHit, h1, h2]
  simp [process_text_endpoint, hlen, hne, hhit2]

/-- Witness: the concrete double request of the demo document, at time
0 on an empty cache. -/
theorem second_request_served_from_cache_witness :
    (process_text_endpoint demoSent demoTok2 [] (some demoModel2) (fun s => s)
        0 [] ("doc") []).1 =
      EndpointOut.ok demoR2 false
        (some (generate_cache_key (fun s => s) ("doc") [])) ∧
    (process_text_endpoint demoSent demoTok2 [] (some demoModel2) (fun s => s)
        0 (process_text_endpoint demoSent demoTok2 [] (some demoModel2)
          (fun s => s) 0 [] ("doc") []).2 ("doc") []).1 =
      EndpointOut.ok demoR2 true none :=
  second_request_served_from_cache demoSent demoTok2 [] (some demoModel2)
    (fun s => s) ("doc") [] 0 0 [] demoR2 (by simp) (by decide) (by decide) rfl
    (by with_unfolding_all rfl) (by with_unfolding_all decide)

/-- Claim C10: deletion never consults expiry: any present key reports
deleted (and is gone afterwards), however stale the entry; only an
absent key reports not-found, leaving the cache unchanged. -/
theorem delete_ignores_expiry (c : Cache) (k : String) :
    (∀ e : CacheEntry, dictLookup k c = some e →
      (delete_cached c k).1 = DeleteOut.deleted ∧
      dictLookup k (delete_cached c k).2 = none) ∧
    (dictLookup k c = none →
      (delete_cached c k).1 = DeleteOut.notFoundD ∧ (delete_cached c k).2 = c) := by
  constructor
  · intro e he
    refine ⟨by simp [delete_cached, he], ?_⟩
    have h2 : (delete_cached c k).2 = dictDel k c := by simp [delete_cached, he]
    rw [h2]
    exact dictLookup_dictDel_self k c
  · intro he
    constructor <;> simp [delete_cached, he]

/-- Witness: deleting the long-expired entry (expires 5) still reports
deleted and removes it; deleting a missing key reports not-found. -/
theorem delete_ignores_expiry_witness :
    ((delete_cached demoCache ("k")).1 = DeleteOut.deleted ∧
      dictLookup ("k") (delete_cached demoCache ("k")).2 = none) ∧
    ((delete_cached demoCache ("zzz")).1 = DeleteOut.notFoundD ∧
      (delete_cached demoCache ("zzz")).2 = demoCache) :=
  ⟨(delete_ignores_expiry demoCache ("k")).1 demoEntry5 rfl,
    (delete_ignores_expiry demoCache ("zzz")).2 rfl⟩
